import Mathlib

/-!
Verification of `KarmaRex/database/subreddits.py` (`SubredditGroupDatabase`),
a normalization-and-persistence wrapper over a path-addressed key-value store.
Python values are embedded as the inductive `PyVal`; the store (whose
implementation lives in `database.py`, outside the verified sources) is
modelled from the specification as a map from group names to stored
documents, with dictionary documents represented as insertion-ordered
association lists, matching Python `dict` semantics.
-/

namespace KarmaRex

/-- Embedding of the Python runtime values that can reach this module:
strings, integers, `None`, lists, sets, tuples and (string-keyed, as produced
by the JSON-backed store) dictionaries. Sets and tuples are carried as their
element lists; set values are only ever compared through the `Finset`
conversions below, so duplicate or order differences in the carrier list are
irrelevant to every statement proved here. -/
inductive PyVal where
  | str : String → PyVal
  | int : Int → PyVal
  | none : PyVal
  | list : List PyVal → PyVal
  | set : List PyVal → PyVal
  | tuple : List PyVal → PyVal
  | dict : List (String × PyVal) → PyVal
mutual

/-- Structural equality test on embedded Python values (nested inductives do
not support derived `DecidableEq`, so it is spelled out). -/
def PyVal.beq : PyVal → PyVal → Bool
  | .str a, .str b => a == b
  | .int a, .int b => a == b
  | .none, .none => true
  | .list a, .list b => beqList a b
  | .set a, .set b => beqList a b
  | .tuple a, .tuple b => beqList a b
  | .dict a, .dict b => beqDict a b
  | _, _ => false

/-- Elementwise equality test on lists of embedded Python values. -/
def beqList : List PyVal → List PyVal → Bool
  | [], [] => true
  | x :: xs, y :: ys => PyVal.beq x y && beqList xs ys
  | _, _ => false

/-- Entrywise equality test on association lists of embedded Python values. -/
def beqDict : List (String × PyVal) → List (String × PyVal) → Bool
  | [], [] => true
  | (k, v) :: xs, (l, w) :: ys => k == l && PyVal.beq v w && beqDict xs ys
  | _, _ => false

end

mutual

theorem PyVal.beq_iff : (a b : PyVal) → (PyVal.beq a b = true ↔ a = b)
  | .str a, .str b => by simp [PyVal.beq]
  | .int a, .int b => by simp [PyVal.beq]
  | .none, .none => by simp [PyVal.beq]
  | .list a, .list b => by simp [PyVal.beq, beqList_iff a b]
  | .set a, .set b => by simp [PyVal.beq, beqList_iff a b]
  | .tuple a, .tuple b => by simp [PyVal.beq, beqList_iff a b]
  | .dict a, .dict b => by simp [PyVal.beq, beqDict_iff a b]
  | .str _, .int _ => by simp [PyVal.beq]
  | .str _, .none => by simp [PyVal.beq]
  | .str _, .list _ => by simp [PyVal.beq]
  | .str _, .set _ => by simp [PyVal.beq]
  | .str _, .tuple _ => by simp [PyVal.beq]
  | .str _, .dict _ => by simp [PyVal.beq]
  | .int _, .str _ => by simp [PyVal.beq]
  | .int _, .none => by simp [PyVal.beq]
  | .int _, .list _ => by simp [PyVal.beq]
  | .int _, .set _ => by simp [PyVal.beq]
  | .int _, .tuple _ => by simp [PyVal.beq]
  | .int _, .dict _ => by simp [PyVal.beq]
  | .none, .str _ => by simp [PyVal.beq]
  | .none, .int _ => by simp [PyVal.beq]
  | .none, .list _ => by simp [PyVal.beq]
  | .none, .set _ => by simp [PyVal.beq]
  | .none, .tuple _ => by simp [PyVal.beq]
  | .none, .dict _ => by simp [PyVal.beq]
  | .list _, .str _ => by simp [PyVal.beq]
  | .list _, .int _ => by simp [PyVal.beq]
  | .list _, .none => by simp [PyVal.beq]
  | .list _, .set _ => by simp [PyVal.beq]
  | .list _, .tuple _ => by simp [PyVal.beq]
  | .list _, .dict _ => by simp [PyVal.beq]
  | .set _, .str _ => by simp [PyVal.beq]
  | .set _, .int _ => by simp [PyVal.beq]
  | .set _, .none => by simp [PyVal.beq]
  | .set _, .list _ => by simp [PyVal.beq]
  | .set _, .tuple _ => by simp [PyVal.beq]
  | .set _, .dict _ => by simp [PyVal.beq]
  | .tuple _, .str _ => by simp [PyVal.beq]
  | .tuple _, .int _ => by simp [PyVal.beq]
  | .tuple _, .none => by simp [PyVal.beq]
  | .tuple _, .list _ => by simp [PyVal.beq]
  | .tuple _, .set _ => by simp [PyVal.beq]
  | .tuple _, .dict _ => by simp [PyVal.beq]
  | .dict _, .str _ => by simp [PyVal.beq]
  | .dict _, .int _ => by simp [PyVal.beq]
  | .dict _, .none => by simp [PyVal.beq]
  | .dict _, .list _ => by simp [PyVal.beq]
  | .dict _, .set _ => by simp [PyVal.beq]
  | .dict _, .tuple _ => by simp [PyVal.beq]

theorem beqList_iff : (xs ys : List PyVal) → (beqList xs ys = true ↔ xs = ys)
  | [], [] => by simp [beqList]
  | x :: xs, y :: ys => by
      simp [beqList, PyVal.beq_iff x y, beqList_iff xs ys]
  | [], _ :: _ => by simp [beqList]
  | _ :: _, [] => by simp [beqList]

theorem beqDict_iff :
    (xs ys : List (String × PyVal)) → (beqDict xs ys = true ↔ xs = ys)
  | [], [] => by simp [beqDict]
  | (k, v) :: xs, (l, w) :: ys => by
      simp [beqDict, PyVal.beq_iff v w, beqDict_iff xs ys, and_assoc]
  | [], _ :: _ => by simp [beqDict]
  | _ :: _, [] => by simp [beqDict]

end

instance : DecidableEq PyVal := fun a b =>
  decidable_of_iff (PyVal.beq a b = true) (PyVal.beq_iff a b)

/-- Python `isinstance(v, str)`. -/
def PyVal.isStr : PyVal → Bool
  | .str _ => true
  | _ => false

mutual

/-- Translation of `SubredditGroupDatabase.__normalize_str_args`: a string
yields its singleton set; a list, set or tuple yields the set accumulated by
the `final_set |= ...` loop over its elements; any other value yields the
empty set. Totality (the source docstring's "will be ignored and will not
raise an error") is inherent: this is a total function on `PyVal`. -/
def normalize_str_args : PyVal → Finset String
  | .str s => {s}
  | .list xs => normalizeLoop ∅ xs
  | .set xs => normalizeLoop ∅ xs
  | .tuple xs => normalizeLoop ∅ xs
  | .int _ => ∅
  | .none => ∅
  | .dict _ => ∅

/-- The `final_set = set(); for list_item in item: final_set |= ...` loop of
`__normalize_str_args`, with `acc` the running value of `final_set`. -/
def normalizeLoop (acc : Finset String) : List PyVal → Finset String
  | [] => acc
  | x :: xs => normalizeLoop (acc ∪ normalize_str_args x) xs

end

mutual

/-- Modelled from the spec: the coercion function `normalize` exactly as §4.1
words it, for the refinement claim comparing the code's normalization against
the spec. A string returns its singleton set; a sequence or set returns "the
union of all resulting sets" of recursively normalizing every element;
otherwise the empty set. -/
def normalizeSpec : PyVal → Finset String
  | .str s => {s}
  | .list xs => unionSpec xs
  | .set xs => unionSpec xs
  | .tuple xs => unionSpec xs
  | .int _ => ∅
  | .none => ∅
  | .dict _ => ∅

/-- Modelled from the spec: "recursively normalize every element and return
the union of all resulting sets". -/
def unionSpec : List PyVal → Finset String
  | [] => ∅
  | x :: xs => normalizeSpec x ∪ unionSpec xs

end

/-- Straight-line form of the accumulator loop: the union of the
normalizations of the elements, the shape every induction below uses. -/
def unionNorm : List PyVal → Finset String
  | [] => ∅
  | x :: xs => normalize_str_args x ∪ unionNorm xs

theorem normalizeLoop_eq (l : List PyVal) :
    ∀ acc, normalizeLoop acc l = acc ∪ unionNorm l := by
  induction l with
  | nil => intro acc; simp [normalizeLoop, unionNorm]
  | cons x xs ih =>
      intro acc
      simp [normalizeLoop, unionNorm, ih, Finset.union_assoc]

theorem normalize_list_val (xs : List PyVal) :
    normalize_str_args (.list xs) = unionNorm xs := by
  simp [normalize_str_args, normalizeLoop_eq]

theorem normalize_set_val (xs : List PyVal) :
    normalize_str_args (.set xs) = unionNorm xs := by
  simp [normalize_str_args, normalizeLoop_eq]

theorem normalize_tuple_val (xs : List PyVal) :
    normalize_str_args (.tuple xs) = unionNorm xs := by
  simp [normalize_str_args, normalizeLoop_eq]

/-- Key lookup in an insertion-ordered association list, mirroring Python
`dict` lookup and `key in db_data`. -/
def lookupKey : List (String × PyVal) → String → Option PyVal
  | [], _ => Option.none
  | (k, v) :: rest, key => if k = key then some v else lookupKey rest key

/-- Key assignment `d[key] = v` on an insertion-ordered association list,
mirroring Python `dict` assignment: replace in place when the key exists,
append at the end otherwise. -/
def setKey : List (String × PyVal) → String → PyVal → List (String × PyVal)
  | [], key, v => [(key, v)]
  | (k, w) :: rest, key, v =>
      if k = key then (k, v) :: rest else (k, w) :: setKey rest key v

/-- Modelled from the spec: the shared key-value store (`Database` in
`database.py`, which is outside the verified sources). The spec describes it
as a path-addressed accessor; this component only ever addresses paths of the
form `("subreddits", "groups", <group_name>)` and one segment below, so it is
modelled as the map from group names to the optional document stored at that
group's path. -/
structure Store where
  groups : String → Option PyVal

/-- Modelled from the spec: `set` on the handle addressing a whole group
document. -/
def Store.setGroup (st : Store) (g : String) (v : PyVal) : Store :=
  ⟨fun g' => if g' = g then some v else st.groups g'⟩

/-- Modelled from the spec: `get` on the handle addressing one field inside a
group document (path `("subreddits", "groups", g, field)`): look the field up
inside the stored document when that document is a mapping. -/
def fieldGet (st : Store) (g field : String) : Option PyVal :=
  match st.groups g with
  | some (.dict d) => lookupKey d field
  | _ => Option.none

/-- Modelled from the spec: `set` on the handle addressing one field inside a
group document: update the field inside the stored mapping (starting from an
empty mapping when no mapping is stored, the degenerate case this component
never reaches after construction). -/
def fieldSet (st : Store) (g field : String) (v : PyVal) : Store :=
  match st.groups g with
  | some (.dict d) => st.setGroup g (.dict (setKey d field v))
  | _ => st.setGroup g (.dict [(field, v)])

/-- `_SUBREDDITS_LIST_KEY`. -/
def SUBREDDITS_LIST_KEY : String := "subreddits"

/-- `_COMMENTS_LIST_KEY`. -/
def COMMENTS_LIST_KEY : String := "comments"

/-- `_DEFAULT_SUBREDDIT_GROUP_DB_STRUCTURE`: both fields map to an empty
list. -/
def DEFAULT_SUBREDDIT_GROUP_DB_STRUCTURE : List (String × PyVal) :=
  [(SUBREDDITS_LIST_KEY, .list []), (COMMENTS_LIST_KEY, .list [])]

/-- Body of the repair loop of `__normalize_database`: `if key not in
db_data: db_data[key] = default[key]`. -/
def repairStep (d : List (String × PyVal)) (kv : String × PyVal) :
    List (String × PyVal) :=
  match lookupKey d kv.1 with
  | Option.none => setKey d kv.1 kv.2
  | some _ => d

/-- Translation of `SubredditGroupDatabase.__normalize_database`, run on
construction: load the group's document; if it is not a mapping, start from an
empty one; fill each key of the default structure that is missing; write the
result back unconditionally. -/
def normalize_database (st : Store) (g : String) : Store :=
  let db_data : List (String × PyVal) :=
    match st.groups g with
    | some (.dict d) => d
    | _ => []
  st.setGroup g
    (.dict (DEFAULT_SUBREDDIT_GROUP_DB_STRUCTURE.foldl repairStep db_data))

/-- The repaired form of a stored mapping: both default fields filled when
missing. -/
def repairedDict (d : List (String × PyVal)) : List (String × PyVal) :=
  repairStep (repairStep d (SUBREDDITS_LIST_KEY, .list []))
    (COMMENTS_LIST_KEY, .list [])

/-- Python `set(v)` for the iterable shapes this module stores and reads
back: the finite set of elements of a list, set or tuple value. Any other
shape (only reachable when the store returns its empty-read default for a
truly absent path, which the spec leaves unspecified) yields the empty set. -/
def pySet (v : PyVal) : Finset PyVal :=
  match v with
  | .list xs => xs.toFinset
  | .set xs => xs.toFinset
  | .tuple xs => xs.toFinset
  | _ => ∅

/-- Embeds a set of strings back into a Python value, as `set` semantics see
it: the set whose elements are the `.str` leaves. -/
def ofStrSet (s : Finset String) : Finset PyVal :=
  s.image PyVal.str

mutual

/-- The set built by `__normalize_str_args`, carried as an explicit
duplicate-free enumeration so that `list(...)` of it is executable. The spec
notes the enumeration order of a Python set is arbitrary and not to be relied
on; `normalize_str_list_toFinset` below proves this enumeration denotes
exactly the set `normalize_str_args` returns. -/
def normalize_str_list : PyVal → List String
  | .str s => [s]
  | .list xs => normalizeListL xs
  | .set xs => normalizeListL xs
  | .tuple xs => normalizeListL xs
  | .int _ => []
  | .none => []
  | .dict _ => []

/-- Enumerated version of `normalizeList`, accumulating with duplicate-free
list union. -/
def normalizeListL : List PyVal → List String
  | [] => []
  | x :: xs => (normalize_str_list x) ∪ (normalizeListL xs)

end

/-- Iterating the Python set `set(v)`: an enumeration of `pySet v`. -/
def pySetElems (v : PyVal) : List PyVal :=
  match v with
  | .list xs => xs.dedup
  | .set xs => xs.dedup
  | .tuple xs => xs.dedup
  | _ => []

/-- Elements produced by iterating the set a field getter returns
(`set(self._access_db(key).get())`). -/
def fieldElems (st : Store) (g key : String) : List PyVal :=
  match fieldGet st g key with
  | some v => pySetElems v
  | Option.none => []

/-- The `subreddits` property: `set(self._access_db(KEY).get())`. -/
def subreddits (st : Store) (g : String) : Finset PyVal :=
  match fieldGet st g SUBREDDITS_LIST_KEY with
  | some v => pySet v
  | Option.none => ∅

/-- The `comments` property: `set(self._access_db(KEY).get())`. -/
def comments (st : Store) (g : String) : Finset PyVal :=
  match fieldGet st g COMMENTS_LIST_KEY with
  | some v => pySet v
  | Option.none => ∅

/-- Translation of `set_subreddits(*subreddits)`: normalize the argument
tuple into a flat set of strings and store it as a list (of `.str` leaves). -/
def set_subreddits (st : Store) (g : String) (args : List PyVal) : Store :=
  fieldSet st g SUBREDDITS_LIST_KEY
    (.list ((normalize_str_list (.tuple args)).map PyVal.str))

/-- Translation of `set_comments(*comments)`. -/
def set_comments (st : Store) (g : String) (args : List PyVal) : Store :=
  fieldSet st g COMMENTS_LIST_KEY
    (.list ((normalize_str_list (.tuple args)).map PyVal.str))

/-- Translation of `add_subreddits(*subreddits)`: union the current stored
set with the normalized input and pass the resulting set as the single
positional argument of `set_subreddits`. The union set's carrier enumerates
the getter's elements followed by the normalized new elements; only its
underlying `Finset` is ever observed. -/
def add_subreddits (st : Store) (g : String) (args : List PyVal) : Store :=
  set_subreddits st g
    [.set (fieldElems st g SUBREDDITS_LIST_KEY ++
      (normalize_str_list (.tuple args)).map PyVal.str)]

/-- Translation of `add_comments(*comments)`. -/
def add_comments (st : Store) (g : String) (args : List PyVal) : Store :=
  set_comments st g
    [.set (fieldElems st g COMMENTS_LIST_KEY ++
      (normalize_str_list (.tuple args)).map PyVal.str)]

/-- Translation of `add_subreddit(subreddit_name)`: raise `TypeError` when
the argument is not a string, otherwise delegate to `add_subreddits`. -/
def add_subreddit (st : Store) (g : String) (v : PyVal) : Except String Store :=
  if v.isStr then .ok (add_subreddits st g [v])
  else .error "Subreddit name must be a string"

/-- Translation of `add_comment(comment)`. -/
def add_comment (st : Store) (g : String) (v : PyVal) : Except String Store :=
  if v.isStr then .ok (add_comments st g [v])
  else .error "Comment must be a string"

/-- A store with no group documents at all, used to instantiate universally
quantified statements at a concrete state. -/
def emptyStore : Store := ⟨fun _ => Option.none⟩

/-- Python `isinstance(v, dict)`. -/
def isDictVal : PyVal → Bool
  | .dict _ => true
  | _ => false

/-- Whether an optional stored document is a mapping (the
`isinstance(db_data, dict)` test of `__normalize_database`, which an absent
document also fails). -/
def isDictOpt : Option PyVal → Bool
  | some v => isDictVal v
  | Option.none => false

/-- Whether a stored field value is a sequence whose elements are all
strings. -/
def isStrListVal : PyVal → Bool
  | .list xs => xs.all PyVal.isStr
  | _ => false

/-- The store-shape invariant on one group's document: the document is a
mapping in which both expected fields are present and bound to sequences of
strings. -/
def docOK : Option PyVal → Bool
  | some (.dict d) =>
      (match lookupKey d SUBREDDITS_LIST_KEY with
       | some v => isStrListVal v
       | Option.none => false) &&
      (match lookupKey d COMMENTS_LIST_KEY with
       | some v => isStrListVal v
       | Option.none => false)
  | _ => false

/-- The store-shape invariant, as a proposition on a store and group. -/
def Inv (st : Store) (g : String) : Prop :=
  docOK (st.groups g) = true

/-- Precondition under which construction can establish `Inv`: any expected
field already present in a stored mapping is itself a sequence of strings
(absent documents and non-mapping documents satisfy this vacuously, since
they are replaced wholesale). -/
def presentFieldsOK : Option PyVal → Bool
  | some (.dict d) =>
      (match lookupKey d SUBREDDITS_LIST_KEY with
       | some v => isStrListVal v
       | Option.none => true) &&
      (match lookupKey d COMMENTS_LIST_KEY with
       | some v => isStrListVal v
       | Option.none => true)
  | _ => true

/-- Frame property of one write: every other group's document is untouched,
and inside this group's document (when it is a mapping) every key other than
`field` keeps its previous binding. -/
def WritesOnlyField (st st' : Store) (g field : String) : Prop :=
  (∀ g', g' ≠ g → st'.groups g' = st.groups g') ∧
  ∀ d, st.groups g = some (.dict d) →
    ∃ d', st'.groups g = some (.dict d') ∧
      ∀ k, k ≠ field → lookupKey d' k = lookupKey d k

section Lemmas

theorem toFinset_map_eq (f : String → PyVal) (l : List String) :
    (l.map f).toFinset = l.toFinset.image f := by
  ext v
  simp [List.mem_map]

theorem toFinset_dedup_list (l : List PyVal) : l.dedup.toFinset = l.toFinset := by
  ext v
  simp [List.mem_dedup]

theorem pySetElems_toFinset (v : PyVal) : (pySetElems v).toFinset = pySet v := by
  cases v <;> simp [pySetElems, pySet, toFinset_dedup_list]

theorem unionNorm_append (a b : List PyVal) :
    unionNorm (a ++ b) = unionNorm a ∪ unionNorm b := by
  induction a with
  | nil => simp [unionNorm]
  | cons x xs ih => simp [unionNorm, ih, Finset.union_assoc]

theorem unionNorm_map_str (l : List String) :
    unionNorm (l.map PyVal.str) = l.toFinset := by
  induction l with
  | nil => simp [unionNorm]
  | cons s l ih =>
      simp [unionNorm, normalize_str_args, ih, Finset.insert_eq]

theorem subset_unionNorm_of_mem {x : PyVal} {l : List PyVal} (h : x ∈ l) :
    normalize_str_args x ⊆ unionNorm l := by
  induction l with
  | nil => cases h
  | cons y ys ih =>
      rcases List.mem_cons.mp h with h | h
      · subst h; exact Finset.subset_union_left
      · exact (ih h).trans Finset.subset_union_right

theorem unionNorm_image_str_of_str_only {l : List PyVal}
    (h : ∀ x ∈ l, x.isStr = true) :
    (unionNorm l).image PyVal.str = l.toFinset := by
  induction l with
  | nil => simp [unionNorm]
  | cons x xs ih =>
      have hx : x.isStr = true := h x (List.mem_cons_self x xs)
      obtain ⟨s, rfl⟩ : ∃ s, x = PyVal.str s := by
        cases x
        case str s => exact ⟨s, rfl⟩
        all_goals simp [PyVal.isStr] at hx
      have hxs : ∀ y ∈ xs, y.isStr = true := fun y hy =>
        h y (List.mem_cons_of_mem _ hy)
      simp [unionNorm, normalize_str_args, Finset.image_union, ih hxs,
        Finset.insert_eq]

mutual

theorem normalize_eq_spec : (v : PyVal) → normalize_str_args v = normalizeSpec v
  | .str s => rfl
  | .list xs => by rw [normalize_list_val, normalizeSpec, unionNorm_eq_spec xs]
  | .set xs => by rw [normalize_set_val, normalizeSpec, unionNorm_eq_spec xs]
  | .tuple xs => by rw [normalize_tuple_val, normalizeSpec, unionNorm_eq_spec xs]
  | .int _ => rfl
  | .none => rfl
  | .dict _ => rfl

theorem unionNorm_eq_spec : (l : List PyVal) → unionNorm l = unionSpec l
  | [] => rfl
  | x :: xs => by
      rw [unionNorm, unionSpec, normalize_eq_spec x, unionNorm_eq_spec xs]

end

mutual

theorem normalize_str_list_toFinset :
    (v : PyVal) → (normalize_str_list v).toFinset = normalize_str_args v
  | .str s => by simp [normalize_str_list, normalize_str_args]
  | .list xs => by
      rw [normalize_str_list, normalize_list_val, normalizeListL_toFinset xs]
  | .set xs => by
      rw [normalize_str_list, normalize_set_val, normalizeListL_toFinset xs]
  | .tuple xs => by
      rw [normalize_str_list, normalize_tuple_val, normalizeListL_toFinset xs]
  | .int _ => by simp [normalize_str_list, normalize_str_args]
  | .none => by simp [normalize_str_list, normalize_str_args]
  | .dict _ => by simp [normalize_str_list, normalize_str_args]

theorem normalizeListL_toFinset :
    (l : List PyVal) → (normalizeListL l).toFinset = unionNorm l
  | [] => by simp [normalizeListL, unionNorm]
  | x :: xs => by
      rw [normalizeListL, unionNorm, List.toFinset_union,
        normalize_str_list_toFinset x, normalizeListL_toFinset xs]

end

theorem lookupKey_setKey_self (d : List (String × PyVal)) (k : String)
    (v : PyVal) : lookupKey (setKey d k v) k = some v := by
  induction d with
  | nil => simp [setKey, lookupKey]
  | cons kv rest ih =>
      obtain ⟨k', w⟩ := kv
      by_cases h : k' = k
      · subst h; simp [setKey, lookupKey]
      · simp [setKey, lookupKey, h, ih]

theorem lookupKey_setKey_ne (d : List (String × PyVal)) {k k' : String}
    (v : PyVal) (h : k' ≠ k) :
    lookupKey (setKey d k v) k' = lookupKey d k' := by
  have hk : ¬ k = k' := fun hc => h hc.symm
  induction d with
  | nil => simp [setKey, lookupKey, hk]
  | cons kv rest ih =>
      obtain ⟨k0, w⟩ := kv
      by_cases h0 : k0 = k
      · subst h0
        simp [setKey, lookupKey, hk]
      · simp [setKey, lookupKey, h0, ih]

theorem groups_fieldSet_dict {st : Store} {g : String}
    {d : List (String × PyVal)} (h : st.groups g = some (.dict d))
    (k : String) (v : PyVal) :
    (fieldSet st g k v).groups g = some (.dict (setKey d k v)) := by
  unfold fieldSet Store.setGroup
  rw [h]
  simp

theorem groups_fieldSet_other (st : Store) {g g' : String} (k : String)
    (v : PyVal) (h : g' ≠ g) :
    (fieldSet st g k v).groups g' = st.groups g' := by
  unfold fieldSet Store.setGroup
  cases st.groups g with
  | none => simp [h]
  | some w => cases w <;> simp [h]

theorem fieldGet_fieldSet_same (st : Store) (g k : String) (v : PyVal) :
    fieldGet (fieldSet st g k v) g k = some v := by
  unfold fieldGet fieldSet Store.setGroup
  cases st.groups g with
  | none => simp [lookupKey]
  | some w => cases w <;> simp [lookupKey, lookupKey_setKey_self]

theorem norm_tuple_single (x : PyVal) :
    normalize_str_args (.tuple [x]) = normalize_str_args x := by
  rw [normalize_tuple_val]
  simp [unionNorm]

theorem ofStrSet_union (a b : Finset String) :
    ofStrSet (a ∪ b) = ofStrSet a ∪ ofStrSet b := by
  unfold ofStrSet
  exact Finset.image_union a b

theorem fieldElems_toFinset_sub (st : Store) (g : String) :
    (fieldElems st g SUBREDDITS_LIST_KEY).toFinset = subreddits st g := by
  unfold fieldElems subreddits
  cases fieldGet st g SUBREDDITS_LIST_KEY with
  | none => simp
  | some v => simp [pySetElems_toFinset]

theorem fieldElems_toFinset_com (st : Store) (g : String) :
    (fieldElems st g COMMENTS_LIST_KEY).toFinset = comments st g := by
  unfold fieldElems comments
  cases fieldGet st g COMMENTS_LIST_KEY with
  | none => simp
  | some v => simp [pySetElems_toFinset]

theorem subreddits_set_subreddits (st : Store) (g : String)
    (args : List PyVal) :
    subreddits (set_subreddits st g args) g =
      ofStrSet (normalize_str_args (.tuple args)) := by
  unfold subreddits set_subreddits
  rw [fieldGet_fieldSet_same]
  simp [pySet, toFinset_map_eq, normalize_str_list_toFinset, ofStrSet]

theorem comments_set_comments (st : Store) (g : String) (args : List PyVal) :
    comments (set_comments st g args) g =
      ofStrSet (normalize_str_args (.tuple args)) := by
  unfold comments set_comments
  rw [fieldGet_fieldSet_same]
  simp [pySet, toFinset_map_eq, normalize_str_list_toFinset, ofStrSet]

theorem subreddits_add_subreddits (st : Store) (g : String)
    (args : List PyVal) :
    subreddits (add_subreddits st g args) g =
      ofStrSet (unionNorm (fieldElems st g SUBREDDITS_LIST_KEY) ∪
        normalize_str_args (.tuple args)) := by
  unfold add_subreddits
  rw [subreddits_set_subreddits, norm_tuple_single, normalize_set_val,
    unionNorm_append]
  congr 1
  congr 1
  rw [unionNorm_map_str, normalize_str_list_toFinset]

theorem comments_add_comments (st : Store) (g : String) (args : List PyVal) :
    comments (add_comments st g args) g =
      ofStrSet (unionNorm (fieldElems st g COMMENTS_LIST_KEY) ∪
        normalize_str_args (.tuple args)) := by
  unfold add_comments
  rw [comments_set_comments, norm_tuple_single, normalize_set_val,
    unionNorm_append]
  congr 1
  congr 1
  rw [unionNorm_map_str, normalize_str_list_toFinset]

theorem unionNorm_fieldElems_sub {st : Store} {g : String}
    (hs : ∀ x ∈ subreddits st g, x.isStr = true) :
    ofStrSet (unionNorm (fieldElems st g SUBREDDITS_LIST_KEY)) =
      subreddits st g := by
  have hall : ∀ x ∈ fieldElems st g SUBREDDITS_LIST_KEY, x.isStr = true := by
    intro x hx
    exact hs x (by rw [← fieldElems_toFinset_sub]; exact List.mem_toFinset.mpr hx)
  rw [ofStrSet, unionNorm_image_str_of_str_only hall, fieldElems_toFinset_sub]

theorem unionNorm_fieldElems_com {st : Store} {g : String}
    (hs : ∀ x ∈ comments st g, x.isStr = true) :
    ofStrSet (unionNorm (fieldElems st g COMMENTS_LIST_KEY)) =
      comments st g := by
  have hall : ∀ x ∈ fieldElems st g COMMENTS_LIST_KEY, x.isStr = true := by
    intro x hx
    exact hs x (by rw [← fieldElems_toFinset_com]; exact List.mem_toFinset.mpr hx)
  rw [ofStrSet, unionNorm_image_str_of_str_only hall, fieldElems_toFinset_com]

theorem writesOnly_fieldSet (st : Store) (g field : String) (v : PyVal) :
    WritesOnlyField st (fieldSet st g field v) g field := by
  refine ⟨fun g' hg => groups_fieldSet_other st field v hg, ?_⟩
  intro d hd
  exact ⟨setKey d field v, groups_fieldSet_dict hd field v,
    fun k hk => lookupKey_setKey_ne d v hk⟩

theorem fieldGet_fieldSet_ne_key {st : Store} {g : String}
    {d : List (String × PyVal)} (h : st.groups g = some (.dict d))
    {k k' : String} (v : PyVal) (hk : k' ≠ k) :
    fieldGet (fieldSet st g k v) g k' = fieldGet st g k' := by
  unfold fieldGet
  rw [groups_fieldSet_dict h, h]
  exact lookupKey_setKey_ne d v hk

theorem repairStep_preserves (d : List (String × PyVal)) (kv : String × PyVal)
    {k : String} {v : PyVal} (h : lookupKey d k = some v) :
    lookupKey (repairStep d kv) k = some v := by
  unfold repairStep
  cases hl : lookupKey d kv.1 with
  | some w => exact h
  | none =>
      by_cases hkk : k = kv.1
      · subst hkk; rw [hl] at h; cases h
      · rw [lookupKey_setKey_ne d kv.2 hkk]; exact h

theorem repairStep_other (d : List (String × PyVal)) (kv : String × PyVal)
    {k : String} (h : k ≠ kv.1) :
    lookupKey (repairStep d kv) k = lookupKey d k := by
  unfold repairStep
  cases lookupKey d kv.1 with
  | some w => rfl
  | none => exact lookupKey_setKey_ne d kv.2 h

theorem repairStep_fill (d : List (String × PyVal)) (k0 : String)
    (v0 : PyVal) :
    lookupKey (repairStep d (k0, v0)) k0 = some ((lookupKey d k0).getD v0) := by
  unfold repairStep
  cases hl : lookupKey d k0 with
  | some w => simp [hl]
  | none => simp [lookupKey_setKey_self]

theorem sub_ne_com : SUBREDDITS_LIST_KEY ≠ COMMENTS_LIST_KEY := by decide

theorem repairedDict_sub (d : List (String × PyVal)) :
    lookupKey (repairedDict d) SUBREDDITS_LIST_KEY =
      some ((lookupKey d SUBREDDITS_LIST_KEY).getD (.list [])) := by
  unfold repairedDict
  rw [repairStep_other _ _ sub_ne_com]
  exact repairStep_fill d SUBREDDITS_LIST_KEY (.list [])

theorem repairedDict_com (d : List (String × PyVal)) :
    lookupKey (repairedDict d) COMMENTS_LIST_KEY =
      some ((lookupKey d COMMENTS_LIST_KEY).getD (.list [])) := by
  unfold repairedDict
  rw [repairStep_fill]
  rw [repairStep_other _ _ (Ne.symm sub_ne_com)]

theorem repairedDict_other (d : List (String × PyVal)) {k : String}
    (h1 : k ≠ SUBREDDITS_LIST_KEY) (h2 : k ≠ COMMENTS_LIST_KEY) :
    lookupKey (repairedDict d) k = lookupKey d k := by
  unfold repairedDict
  rw [repairStep_other _ _ h2, repairStep_other _ _ h1]

theorem repairedDict_preserves (d : List (String × PyVal)) {k : String}
    {v : PyVal} (h : lookupKey d k = some v) :
    lookupKey (repairedDict d) k = some v :=
  repairStep_preserves _ _ (repairStep_preserves _ _ h)

theorem normalize_database_dict {st : Store} {g : String}
    {d : List (String × PyVal)} (h : st.groups g = some (.dict d)) :
    (normalize_database st g).groups g = some (.dict (repairedDict d)) := by
  unfold normalize_database Store.setGroup
  rw [h]
  simp [DEFAULT_SUBREDDIT_GROUP_DB_STRUCTURE, List.foldl, repairedDict]

theorem normalize_database_not_dict {st : Store} {g : String}
    (h : isDictOpt (st.groups g) = false) :
    (normalize_database st g).groups g =
      some (.dict DEFAULT_SUBREDDIT_GROUP_DB_STRUCTURE) := by
  unfold normalize_database Store.setGroup
  cases hv : st.groups g with
  | none => simp; decide
  | some w =>
      rw [hv] at h
      cases w with
      | dict d => simp [isDictOpt, isDictVal] at h
      | str s => simp; decide
      | int n => simp; decide
      | none => simp; decide
      | list xs => simp; decide
      | set xs => simp; decide
      | tuple xs => simp; decide

theorem docOK_iff (o : Option PyVal) :
    docOK o = true ↔ ∃ d, o = some (.dict d) ∧
      (∃ v, lookupKey d SUBREDDITS_LIST_KEY = some v ∧ isStrListVal v = true) ∧
      (∃ v, lookupKey d COMMENTS_LIST_KEY = some v ∧ isStrListVal v = true) := by
  cases o with
  | none => simp [docOK]
  | some w =>
      cases w with
      | dict d =>
          simp only [docOK, Bool.and_eq_true, Option.some.injEq]
          constructor
          · rintro ⟨h1, h2⟩
            refine ⟨d, rfl, ?_, ?_⟩
            · cases hl : lookupKey d SUBREDDITS_LIST_KEY with
              | none => rw [hl] at h1; cases h1
              | some v => rw [hl] at h1; exact ⟨v, rfl, h1⟩
            · cases hl : lookupKey d COMMENTS_LIST_KEY with
              | none => rw [hl] at h2; cases h2
              | some v => rw [hl] at h2; exact ⟨v, rfl, h2⟩
          · rintro ⟨d', hd, ⟨v1, hv1, hs1⟩, ⟨v2, hv2, hs2⟩⟩
            cases hd
            rw [hv1, hv2]
            exact ⟨hs1, hs2⟩
      | str s => simp [docOK]
      | int n => simp [docOK]
      | none => simp [docOK]
      | list xs => simp [docOK]
      | set xs => simp [docOK]
      | tuple xs => simp [docOK]

theorem isStrListVal_map_str (l : List String) :
    isStrListVal (.list (l.map PyVal.str)) = true := by
  simp only [isStrListVal, List.all_eq_true]
  intro x hx
  obtain ⟨s, _, rfl⟩ := List.mem_map.mp hx
  rfl

theorem Inv_set_sub (st : Store) (g : String) (args : List PyVal)
    (h : Inv st g) : Inv (set_subreddits st g args) g := by
  obtain ⟨d, hd, ⟨v1, hv1, hs1⟩, ⟨v2, hv2, hs2⟩⟩ := (docOK_iff _).mp h
  unfold Inv
  rw [docOK_iff]
  refine ⟨setKey d SUBREDDITS_LIST_KEY
      (.list ((normalize_str_list (.tuple args)).map PyVal.str)),
    groups_fieldSet_dict hd _ _, ?_, ?_⟩
  · exact ⟨_, lookupKey_setKey_self d _ _, isStrListVal_map_str _⟩
  · exact ⟨v2, by rw [lookupKey_setKey_ne d _ (Ne.symm sub_ne_com)]; exact hv2,
      hs2⟩

theorem Inv_set_com (st : Store) (g : String) (args : List PyVal)
    (h : Inv st g) : Inv (set_comments st g args) g := by
  obtain ⟨d, hd, ⟨v1, hv1, hs1⟩, ⟨v2, hv2, hs2⟩⟩ := (docOK_iff _).mp h
  unfold Inv
  rw [docOK_iff]
  refine ⟨setKey d COMMENTS_LIST_KEY
      (.list ((normalize_str_list (.tuple args)).map PyVal.str)),
    groups_fieldSet_dict hd _ _, ?_, ?_⟩
  · exact ⟨v1, by rw [lookupKey_setKey_ne d _ sub_ne_com]; exact hv1, hs1⟩
  · exact ⟨_, lookupKey_setKey_self d _ _, isStrListVal_map_str _⟩

theorem Inv_normalize (st : Store) (g : String)
    (h : presentFieldsOK (st.groups g) = true) :
    Inv (normalize_database st g) g := by
  unfold Inv
  rw [docOK_iff]
  cases hdict : isDictOpt (st.groups g) with
  | false =>
      refine ⟨DEFAULT_SUBREDDIT_GROUP_DB_STRUCTURE,
        normalize_database_not_dict hdict, ?_, ?_⟩ <;>
        exact ⟨.list [], by decide, by decide⟩
  | true =>
      obtain ⟨d, hd⟩ : ∃ d, st.groups g = some (.dict d) := by
        cases hv : st.groups g with
        | none => rw [hv] at hdict; cases hdict
        | some w =>
            cases w <;> rw [hv] at hdict <;> first
              | exact ⟨_, rfl⟩
              | cases hdict
      refine ⟨repairedDict d, normalize_database_dict hd, ?_, ?_⟩
      · rw [repairedDict_sub]
        refine ⟨_, rfl, ?_⟩
        rw [hd] at h
        unfold presentFieldsOK at h
        rw [Bool.and_eq_true] at h
        cases hl : lookupKey d SUBREDDITS_LIST_KEY with
        | none => decide
        | some v => rw [hl] at h; simpa using h.1
      · rw [repairedDict_com]
        refine ⟨_, rfl, ?_⟩
        rw [hd] at h
        unfold presentFieldsOK at h
        rw [Bool.and_eq_true] at h
        cases hl : lookupKey d COMMENTS_LIST_KEY with
        | none => decide
        | some v => rw [hl] at h; simpa using h.2

end Lemmas

/-- C1: Round trip through a field: for every store, group name and argument
tuple, calling the plural setter and then reading the getter returns exactly
the flat set of string leaves of the arguments (duplicates collapse, nesting
flattens, and the previous field contents are fully overwritten since the
result does not depend on the prior state); in particular, setting the feeds
to `"a", ["b", "c"], {"c", "d"}` yields the set `{"a", "b", "c", "d"}`. -/
theorem set_roundtrip_exact :
    (∀ st g args, subreddits (set_subreddits st g args) g =
      ofStrSet (normalize_str_args (.tuple args))) ∧
    (∀ st g args, comments (set_comments st g args) g =
      ofStrSet (normalize_str_args (.tuple args))) ∧
    ∀ st g, subreddits (set_subreddits st g
        [.str "a", .list [.str "b", .str "c"], .set [.str "c", .str "d"]]) g =
      ofStrSet {"a", "b", "c", "d"} := by
  refine ⟨subreddits_set_subreddits, comments_set_comments, fun st g => ?_⟩
  rw [subreddits_set_subreddits]
  congr 1

/-- C2: the internal coercion `__normalize_str_args` is total (a total Lean
function by construction, with no error outcome in its type) and agrees on
every input, at arbitrary nesting depth, with the spec's description of
`normalize`: the singleton set on a string, the union of the recursive
normalization of every element on a list, set or tuple, and the empty set on
any other value. -/
theorem normalize_matches_spec :
    ∀ v : PyVal, normalize_str_args v = normalizeSpec v :=
  normalize_eq_spec

/-- C7: silent discard of non-string leaves: the plural setters are total
functions (no error outcome in their type), the value they store is exactly
the normalized string leaves — every element of the written sequence is a
string — and on the spec's example only `"ok"` and `"also_ok"` survive. -/
theorem nonstring_leaves_dropped :
    (∀ st g args, comments (set_comments st g args) g =
        ofStrSet (normalize_str_args (.tuple args))) ∧
    (∀ st g args,
        fieldGet (set_comments st g args) g COMMENTS_LIST_KEY =
          some (.list ((normalize_str_list (.tuple args)).map PyVal.str)) ∧
        ∀ x ∈ (normalize_str_list (.tuple args)).map PyVal.str,
          x.isStr = true) ∧
    ∀ st g, comments (set_comments st g
        [.str "ok", .int 5, .none, .list [.str "also_ok", .int 7]]) g =
      ofStrSet {"ok", "also_ok"} := by
  refine ⟨comments_set_comments, fun st g args => ⟨?_, ?_⟩, fun st g => ?_⟩
  · exact fieldGet_fieldSet_same st g COMMENTS_LIST_KEY _
  · intro x hx
    obtain ⟨s, _, rfl⟩ := List.mem_map.mp hx
    rfl
  · rw [comments_set_comments]
    congr 1

/-- C7 witness: the second conjunct instantiated at the spec's example call
on the empty store, every hypothesis discharged concretely. -/
theorem nonstring_leaves_dropped_witness :
    fieldGet (set_comments emptyStore "g"
        [.str "ok", .int 5, .none, .list [.str "also_ok", .int 7]]) "g"
        COMMENTS_LIST_KEY =
      some (.list ((normalize_str_list (.tuple
        [.str "ok", .int 5, .none,
          .list [.str "also_ok", .int 7]])).map PyVal.str)) ∧
    PyVal.isStr (PyVal.str "ok") = true :=
  ⟨(nonstring_leaves_dropped.2.1 emptyStore "g"
      [.str "ok", .int 5, .none, .list [.str "also_ok", .int 7]]).1,
    (nonstring_leaves_dropped.2.1 emptyStore "g"
      [.str "ok", .int 5, .none, .list [.str "also_ok", .int 7]]).2
      (PyVal.str "ok") (by decide)⟩

/-- C9: normalization is idempotent under re-normalization: re-normalizing a
collection (set or list) whose single element is the set `normalize(x)`
(embedded as a set value enumerating it) returns the same set as
`normalize(x)`, for every input `x`. -/
theorem normalize_idempotent :
    ∀ x : PyVal,
      normalize_str_args
          (.set [.set ((normalize_str_list x).map PyVal.str)]) =
        normalize_str_args x ∧
      normalize_str_args
          (.list [.set ((normalize_str_list x).map PyVal.str)]) =
        normalize_str_args x := by
  intro x
  have hinner :
      normalize_str_args (.set ((normalize_str_list x).map PyVal.str)) =
        normalize_str_args x := by
    rw [normalize_set_val, unionNorm_map_str, normalize_str_list_toFinset]
  constructor
  · rw [normalize_set_val]
    simp [unionNorm, hinner]
  · rw [normalize_list_val]
    simp [unionNorm, hinner]

/-- C3: construction shape repair: for every store state and group name,
construction writes back a mapping unconditionally; when the stored document
is absent or not a mapping it becomes exactly the default structure (both
expected fields bound to empty sequences, any previous non-mapping value
discarded wholesale); and for a previously absent group both getters return
the empty set immediately after construction. -/
theorem construction_repair :
    ∀ st g,
      (∃ d', (normalize_database st g).groups g = some (.dict d')) ∧
      (isDictOpt (st.groups g) = false →
        (normalize_database st g).groups g =
          some (.dict DEFAULT_SUBREDDIT_GROUP_DB_STRUCTURE)) ∧
      (st.groups g = Option.none →
        subreddits (normalize_database st g) g = ∅ ∧
        comments (normalize_database st g) g = ∅) := by
  intro st g
  refine ⟨?_, normalize_database_not_dict, ?_⟩
  · cases hv : st.groups g with
    | none => exact ⟨_, normalize_database_not_dict (by rw [hv]; rfl)⟩
    | some w =>
        cases w with
        | dict d => exact ⟨_, normalize_database_dict hv⟩
        | str s => exact ⟨_, normalize_database_not_dict (by rw [hv]; rfl)⟩
        | int n => exact ⟨_, normalize_database_not_dict (by rw [hv]; rfl)⟩
        | none => exact ⟨_, normalize_database_not_dict (by rw [hv]; rfl)⟩
        | list xs => exact ⟨_, normalize_database_not_dict (by rw [hv]; rfl)⟩
        | set xs => exact ⟨_, normalize_database_not_dict (by rw [hv]; rfl)⟩
        | tuple xs =>
            exact ⟨_, normalize_database_not_dict (by rw [hv]; rfl)⟩
  · intro h
    have hd : isDictOpt (st.groups g) = false := by rw [h]; rfl
    have hgr := normalize_database_not_dict hd
    constructor
    · unfold subreddits fieldGet
      rw [hgr]
      decide
    · unfold comments fieldGet
      rw [hgr]
      decide

/-- C3 witness: construction on the empty store at group `"art"` repairs to
the default document and both getters come back empty. -/
theorem construction_repair_witness :
    isDictOpt (emptyStore.groups "art") = false ∧
    (normalize_database emptyStore "art").groups "art" =
      some (.dict DEFAULT_SUBREDDIT_GROUP_DB_STRUCTURE) ∧
    subreddits (normalize_database emptyStore "art") "art" = ∅ ∧
    comments (normalize_database emptyStore "art") "art" = ∅ :=
  ⟨by decide, (construction_repair emptyStore "art").2.1 (by decide),
    ((construction_repair emptyStore "art").2.2 rfl).1,
    ((construction_repair emptyStore "art").2.2 rfl).2⟩

/-- C4: additive update: whenever the stored field holds a set of strings (as
the data model requires of every stored field value), `add_*` followed by the
getter returns the union of the previously stored set and the flat set of
string leaves of the arguments: a read-modify-write realised as a full
overwrite through the plural setter. -/
theorem additive_update :
    ∀ st g args,
      ((∀ x ∈ subreddits st g, x.isStr = true) →
        subreddits (add_subreddits st g args) g =
          subreddits st g ∪ ofStrSet (normalize_str_args (.tuple args))) ∧
      ((∀ x ∈ comments st g, x.isStr = true) →
        comments (add_comments st g args) g =
          comments st g ∪ ofStrSet (normalize_str_args (.tuple args))) := by
  intro st g args
  constructor
  · intro hs
    rw [subreddits_add_subreddits, ofStrSet_union, unionNorm_fieldElems_sub hs]
  · intro hs
    rw [comments_add_comments, ofStrSet_union, unionNorm_fieldElems_com hs]

/-- C4 witness: starting from stored feeds `{"x"}`, adding
`"y", "y", ["z"]` yields `{"x"} ∪ {"y", "z"}`, every hypothesis discharged
concretely on the resulting store. -/
theorem additive_update_witness :
    (∀ x ∈ subreddits (set_subreddits emptyStore "g" [.str "x"]) "g",
      x.isStr = true) ∧
    subreddits (add_subreddits (set_subreddits emptyStore "g" [.str "x"]) "g"
        [.str "y", .str "y", .list [.str "z"]]) "g" =
      subreddits (set_subreddits emptyStore "g" [.str "x"]) "g" ∪
        ofStrSet (normalize_str_args
          (.tuple [.str "y", .str "y", .list [.str "z"]])) :=
  ⟨by decide,
    (additive_update (set_subreddits emptyStore "g" [.str "x"]) "g"
      [.str "y", .str "y", .list [.str "z"]]).1 (by decide)⟩

/-- C5: the singular convenience methods raise a type error exactly when the
argument is not a string: on a non-string they return the error and nothing
else; on a string they succeed and the string is afterwards a member of the
corresponding getter's result. -/
theorem singular_type_guard :
    ∀ st g v,
      (v.isStr = false →
        add_subreddit st g v = .error "Subreddit name must be a string" ∧
        add_comment st g v = .error "Comment must be a string") ∧
      ∀ s, v = PyVal.str s →
        add_subreddit st g v = .ok (add_subreddits st g [v]) ∧
        v ∈ subreddits (add_subreddits st g [v]) g ∧
        add_comment st g v = .ok (add_comments st g [v]) ∧
        v ∈ comments (add_comments st g [v]) g := by
  intro st g v
  constructor
  · intro h
    unfold add_subreddit add_comment
    rw [h]
    exact ⟨rfl, rfl⟩
  · rintro s rfl
    refine ⟨rfl, ?_, rfl, ?_⟩
    · rw [subreddits_add_subreddits]
      apply Finset.mem_image_of_mem
      apply Finset.mem_union_right
      rw [norm_tuple_single]
      exact Finset.mem_singleton_self s
    · rw [comments_add_comments]
      apply Finset.mem_image_of_mem
      apply Finset.mem_union_right
      rw [norm_tuple_single]
      exact Finset.mem_singleton_self s

/-- C5 witness: `add_single_feed(42)` errors and `add_single_feed("art")`
succeeds with `"art"` in the resulting feed set, on the empty store. -/
theorem singular_type_guard_witness :
    (PyVal.int 42).isStr = false ∧
    add_subreddit emptyStore "g" (.int 42) =
      .error "Subreddit name must be a string" ∧
    PyVal.str "art" ∈
      subreddits (add_subreddits emptyStore "g" [.str "art"]) "g" :=
  ⟨by decide,
    ((singular_type_guard emptyStore "g" (.int 42)).1 (by decide)).1,
    (((singular_type_guard emptyStore "g" (.str "art")).2 "art" rfl)).2.1⟩

/-- C6: frame-preserving repair on a stored mapping: for every stored mapping
`d`, construction writes back a mapping in which every existing binding of
`d` survives, every key other than the two expected fields is unchanged, and
each expected field ends up bound to its previous value when present and to
the empty sequence when missing. -/
theorem repair_preserves_mapping :
    ∀ st g d, st.groups g = some (.dict d) →
      ∃ d', (normalize_database st g).groups g = some (.dict d') ∧
        (∀ k v, lookupKey d k = some v → lookupKey d' k = some v) ∧
        (∀ k, k ≠ SUBREDDITS_LIST_KEY → k ≠ COMMENTS_LIST_KEY →
          lookupKey d' k = lookupKey d k) ∧
        lookupKey d' SUBREDDITS_LIST_KEY =
          some ((lookupKey d SUBREDDITS_LIST_KEY).getD (.list [])) ∧
        lookupKey d' COMMENTS_LIST_KEY =
          some ((lookupKey d COMMENTS_LIST_KEY).getD (.list [])) := by
  intro st g d hd
  exact ⟨repairedDict d, normalize_database_dict hd,
    fun k v h => repairedDict_preserves d h,
    fun k h1 h2 => repairedDict_other d h1 h2,
    repairedDict_sub d, repairedDict_com d⟩

/-- C6 witness: the spec's example, a stored mapping with feeds `["a"]` and
an unrelated key but no comments field: after construction the document is
that same mapping with the comments field appended empty, and the general
theorem applies to it. -/
theorem repair_preserves_mapping_witness :
    (emptyStore.setGroup "g" (.dict [("subreddits", .list [.str "a"]),
        ("extra_key", .int 1)])).groups "g" =
      some (.dict [("subreddits", .list [.str "a"]), ("extra_key", .int 1)]) ∧
    (∃ d', (normalize_database (emptyStore.setGroup "g"
        (.dict [("subreddits", .list [.str "a"]), ("extra_key", .int 1)]))
          "g").groups "g" = some (.dict d') ∧
      (∀ k v, lookupKey [("subreddits", .list [.str "a"]),
          ("extra_key", .int 1)] k = some v → lookupKey d' k = some v) ∧
      (∀ k, k ≠ SUBREDDITS_LIST_KEY → k ≠ COMMENTS_LIST_KEY →
        lookupKey d' k = lookupKey [("subreddits", .list [.str "a"]),
          ("extra_key", .int 1)] k) ∧
      lookupKey d' SUBREDDITS_LIST_KEY =
        some ((lookupKey [("subreddits", .list [.str "a"]),
          ("extra_key", .int 1)] SUBREDDITS_LIST_KEY).getD (.list [])) ∧
      lookupKey d' COMMENTS_LIST_KEY =
        some ((lookupKey [("subreddits", .list [.str "a"]),
          ("extra_key", .int 1)] COMMENTS_LIST_KEY).getD (.list []))) ∧
    (normalize_database (emptyStore.setGroup "g"
        (.dict [("subreddits", .list [.str "a"]), ("extra_key", .int 1)]))
          "g").groups "g" =
      some (.dict [("subreddits", .list [.str "a"]), ("extra_key", .int 1),
        ("comments", .list [])]) :=
  ⟨by decide,
    repair_preserves_mapping
      (emptyStore.setGroup "g" (.dict [("subreddits", .list [.str "a"]),
        ("extra_key", .int 1)]))
      "g" [("subreddits", .list [.str "a"]), ("extra_key", .int 1)]
      (by decide),
    by decide⟩

/-- C8 counterexample: the claim fails as stated. On a stored mapping whose
`"subreddits"` field is present but holds the integer `3`, construction
leaves the document unchanged (both keys are present, so nothing is filled),
and the resulting stored document does not bind both fields to sequences of
strings. -/
theorem shape_invariant_counterexample :
    (normalize_database (emptyStore.setGroup "g"
        (.dict [("subreddits", .int 3), ("comments", .list [])])) "g").groups
        "g" =
      some (.dict [("subreddits", .int 3), ("comments", .list [])]) ∧
    ¬ Inv (normalize_database (emptyStore.setGroup "g"
        (.dict [("subreddits", .int 3), ("comments", .list [])])) "g") "g" :=
  ⟨by decide, by unfold Inv; decide⟩

/-- C8 (amended): construction establishes the store-shape invariant — both
fields present as sequences of strings — whenever every expected field that
is already present in the stored mapping is itself a sequence of strings
(in particular for absent groups and non-mapping documents, which are
replaced wholesale), and every write operation of the component preserves the
invariant; the getters read without writing, so they preserve it trivially. -/
theorem shape_invariant :
    ∀ st g args v,
      (presentFieldsOK (st.groups g) = true →
        Inv (normalize_database st g) g) ∧
      (Inv st g → Inv (set_subreddits st g args) g) ∧
      (Inv st g → Inv (set_comments st g args) g) ∧
      (Inv st g → Inv (add_subreddits st g args) g) ∧
      (Inv st g → Inv (add_comments st g args) g) ∧
      (Inv st g → ∀ st', add_subreddit st g v = .ok st' → Inv st' g) ∧
      (Inv st g → ∀ st', add_comment st g v = .ok st' → Inv st' g) := by
  intro st g args v
  refine ⟨Inv_normalize st g, Inv_set_sub st g args, Inv_set_com st g args,
    Inv_set_sub st g _, Inv_set_com st g _, ?_, ?_⟩
  · intro h st' hok
    cases hs : v.isStr with
    | false => simp [add_subreddit, hs] at hok
    | true =>
        simp [add_subreddit, hs] at hok
        subst hok
        exact Inv_set_sub st g _ h
  · intro h st' hok
    cases hs : v.isStr with
    | false => simp [add_comment, hs] at hok
    | true =>
        simp [add_comment, hs] at hok
        subst hok
        exact Inv_set_com st g _ h

/-- C8 witness: the amended theorem applied concretely: constructing on the
empty store establishes the invariant and a subsequent plural set preserves
it. -/
theorem shape_invariant_witness :
    presentFieldsOK (emptyStore.groups "g") = true ∧
    Inv (normalize_database emptyStore "g") "g" ∧
    Inv (set_subreddits (normalize_database emptyStore "g") "g"
      [.str "a"]) "g" :=
  ⟨by decide,
    (shape_invariant emptyStore "g" [] (.str "a")).1 (by decide),
    (shape_invariant (normalize_database emptyStore "g") "g" [.str "a"]
      (.str "a")).2.1 (by unfold Inv; decide)⟩

/-- C10: field isolation: each feeds write (plural set, plural add,
successful singular add) touches only the `"subreddits"` field of the bound
group's document — every other group's document and, when the group document
is a mapping, every other key of it (the `"comments"` field included) keep
their previous bindings — and symmetrically each comments write touches only
the `"comments"` field; consequently the opposite getter reads the same set
before and after. -/
theorem field_isolation :
    ∀ st g args v,
      WritesOnlyField st (set_subreddits st g args) g SUBREDDITS_LIST_KEY ∧
      WritesOnlyField st (add_subreddits st g args) g SUBREDDITS_LIST_KEY ∧
      (∀ st', add_subreddit st g v = .ok st' →
        WritesOnlyField st st' g SUBREDDITS_LIST_KEY) ∧
      WritesOnlyField st (set_comments st g args) g COMMENTS_LIST_KEY ∧
      WritesOnlyField st (add_comments st g args) g COMMENTS_LIST_KEY ∧
      (∀ st', add_comment st g v = .ok st' →
        WritesOnlyField st st' g COMMENTS_LIST_KEY) ∧
      ∀ d, st.groups g = some (.dict d) →
        comments (set_subreddits st g args) g = comments st g ∧
        subreddits (set_comments st g args) g = subreddits st g := by
  intro st g args v
  refine ⟨writesOnly_fieldSet st g SUBREDDITS_LIST_KEY _,
    writesOnly_fieldSet st g SUBREDDITS_LIST_KEY _, ?_,
    writesOnly_fieldSet st g COMMENTS_LIST_KEY _,
    writesOnly_fieldSet st g COMMENTS_LIST_KEY _, ?_, ?_⟩
  · intro st' hok
    cases hs : v.isStr with
    | false => simp [add_subreddit, hs] at hok
    | true =>
        simp [add_subreddit, hs] at hok
        subst hok
        exact writesOnly_fieldSet st g SUBREDDITS_LIST_KEY _
  · intro st' hok
    cases hs : v.isStr with
    | false => simp [add_comment, hs] at hok
    | true =>
        simp [add_comment, hs] at hok
        subst hok
        exact writesOnly_fieldSet st g COMMENTS_LIST_KEY _
  · intro d hd
    constructor
    · unfold comments set_subreddits
      rw [fieldGet_fieldSet_ne_key hd _ (Ne.symm sub_ne_com)]
    · unfold subreddits set_comments
      rw [fieldGet_fieldSet_ne_key hd _ sub_ne_com]

/-- C10 witness: the theorem applied on a store holding the default document
for group `"g"`: a successful singular feed add writes only the feeds field,
and a feeds set leaves the comments getter unchanged. -/
theorem field_isolation_witness :
    add_subreddit (emptyStore.setGroup "g"
        (.dict DEFAULT_SUBREDDIT_GROUP_DB_STRUCTURE)) "g" (.str "a") =
      .ok (add_subreddits (emptyStore.setGroup "g"
        (.dict DEFAULT_SUBREDDIT_GROUP_DB_STRUCTURE)) "g" [.str "a"]) ∧
    WritesOnlyField (emptyStore.setGroup "g"
        (.dict DEFAULT_SUBREDDIT_GROUP_DB_STRUCTURE))
      (add_subreddits (emptyStore.setGroup "g"
        (.dict DEFAULT_SUBREDDIT_GROUP_DB_STRUCTURE)) "g" [.str "a"])
      "g" SUBREDDITS_LIST_KEY ∧
    (emptyStore.setGroup "g"
        (.dict DEFAULT_SUBREDDIT_GROUP_DB_STRUCTURE)).groups "g" =
      some (.dict DEFAULT_SUBREDDIT_GROUP_DB_STRUCTURE) ∧
    comments (set_subreddits (emptyStore.setGroup "g"
        (.dict DEFAULT_SUBREDDIT_GROUP_DB_STRUCTURE)) "g" [.str "a"]) "g" =
      comments (emptyStore.setGroup "g"
        (.dict DEFAULT_SUBREDDIT_GROUP_DB_STRUCTURE)) "g" :=
  ⟨rfl,
    (field_isolation (emptyStore.setGroup "g"
        (.dict DEFAULT_SUBREDDIT_GROUP_DB_STRUCTURE)) "g" [.str "a"]
        (.str "a")).2.2.1 _ rfl,
    by decide,
    ((field_isolation (emptyStore.setGroup "g"
        (.dict DEFAULT_SUBREDDIT_GROUP_DB_STRUCTURE)) "g" [.str "a"]
        (.str "a")).2.2.2.2.2.2 DEFAULT_SUBREDDIT_GROUP_DB_STRUCTURE
        (by decide)).1⟩

end KarmaRex
